import Mathlib

/-!
Shallow embedding of the gridding/transform engine of qtplot
(src/qtplot/data.py) and verification of its stated properties.

Floating-point cell values are modelled by the type `V`: an exact rational
(`num`), the IEEE quiet NaN (`nan`), and the two infinities (`pinf`, `ninf`).
Matrices are lists of rows (`Mat`), mirroring the 2-d numpy arrays of the
source; numpy axis-0 operations act on rows of the list, axis-1 operations
act inside each row.  Transcendental functions (log10, pow on positive
bases, exp) do not have rational values; where only their NaN/infinity
branching matters they are parameterised by an abstract value function,
and the convolution-kernel development works directly over the reals.
-/

/-- Model of a double-precision value: finite rational, NaN, or infinity. -/
inductive V where
  | num : ℚ → V
  | nan : V
  | pinf : V
  | ninf : V
deriving DecidableEq

namespace V

/-- True exactly on the NaN value. -/
def isNan : V → Bool
  | nan => true
  | _ => false

/-- IEEE `==`: NaN compares unequal to everything, including itself. -/
def veq : V → V → Bool
  | num a, num b => decide (a = b)
  | pinf, pinf => true
  | ninf, ninf => true
  | _, _ => false

/-- IEEE `<`: any comparison involving NaN is false. -/
def vlt : V → V → Bool
  | nan, _ => false
  | _, nan => false
  | ninf, ninf => false
  | ninf, _ => true
  | _, ninf => false
  | pinf, _ => false
  | num _, pinf => true
  | num a, num b => decide (a < b)

/-- IEEE `<=`: any comparison involving NaN is false. -/
def vle : V → V → Bool
  | nan, _ => false
  | _, nan => false
  | ninf, _ => true
  | _, ninf => false
  | _, pinf => true
  | pinf, _ => false
  | num a, num b => decide (a ≤ b)

/-- IEEE `>`. -/
def vgt (a b : V) : Bool := vlt b a

/-- IEEE `>=`. -/
def vge (a b : V) : Bool := vle b a

/-- IEEE negation. -/
def vneg : V → V
  | num a => num (-a)
  | nan => nan
  | pinf => ninf
  | ninf => pinf

/-- IEEE addition (inf − inf gives NaN). -/
def vadd : V → V → V
  | nan, _ => nan
  | _, nan => nan
  | pinf, ninf => nan
  | ninf, pinf => nan
  | pinf, _ => pinf
  | _, pinf => pinf
  | ninf, _ => ninf
  | _, ninf => ninf
  | num a, num b => num (a + b)

/-- IEEE subtraction. -/
def vsub (a b : V) : V := vadd a (vneg b)

/-- IEEE multiplication (0 · inf gives NaN). -/
def vmul : V → V → V
  | nan, _ => nan
  | _, nan => nan
  | num a, num b => num (a * b)
  | pinf, num b => if b = 0 then nan else if 0 < b then pinf else ninf
  | num a, pinf => if a = 0 then nan else if 0 < a then pinf else ninf
  | ninf, num b => if b = 0 then nan else if 0 < b then ninf else pinf
  | num a, ninf => if a = 0 then nan else if 0 < a then ninf else pinf
  | pinf, pinf => pinf
  | ninf, ninf => pinf
  | pinf, ninf => ninf
  | ninf, pinf => ninf

/-- IEEE division (x/0 gives a signed infinity, 0/0 and inf/inf give NaN). -/
def vdiv : V → V → V
  | nan, _ => nan
  | _, nan => nan
  | num a, num b =>
      if b = 0 then (if a = 0 then nan else if 0 < a then pinf else ninf)
      else num (a / b)
  | num _, pinf => num 0
  | num _, ninf => num 0
  | pinf, num b => if 0 ≤ b then pinf else ninf
  | ninf, num b => if 0 ≤ b then ninf else pinf
  | pinf, _ => nan
  | ninf, _ => nan

/-- IEEE absolute value. -/
def vabs : V → V
  | num a => num |a|
  | nan => nan
  | pinf => pinf
  | ninf => pinf

/-- Minimum of two non-NaN values (NaN propagates). -/
def vmin : V → V → V
  | nan, _ => nan
  | _, nan => nan
  | a, b => if vle a b then a else b

/-- Maximum of two non-NaN values (NaN propagates). -/
def vmax : V → V → V
  | nan, _ => nan
  | _, nan => nan
  | a, b => if vle a b then b else a

end V

open V

/-- Sum of a list of values, as numpy `np.sum` / `np.average` numerator
(NaN poisons the sum). -/
def vsumList (l : List V) : V := l.foldl vadd (num 0)

/-- Model of `np.nanmin`: minimum ignoring NaN entries; NaN when all entries are NaN. -/
def nanminList (l : List V) : V :=
  match l.filter (fun v => !v.isNan) with
  | [] => nan
  | a :: t => t.foldl vmin a

/-- Model of `np.nanmax`: maximum ignoring NaN entries; NaN when all entries are NaN. -/
def nanmaxList (l : List V) : V :=
  match l.filter (fun v => !v.isNan) with
  | [] => nan
  | a :: t => t.foldl vmax a

/-- Model of `np.average` of a one-dimensional array: sum divided by length. -/
def vaverage (l : List V) : V := vdiv (vsumList l) (num l.length)

/-- A 2-d float array: list of rows. -/
abbrev Mat := List (List V)

/-- Predicate: `m` is a well-formed `r × c` matrix. -/
def rect (m : Mat) (r c : ℕ) : Prop :=
  m.length = r ∧ ∀ row ∈ m, row.length = c

instance (m : Mat) (r c : ℕ) : Decidable (rect m r c) := by
  unfold rect; infer_instance

/-- Row-length profile of a matrix; two matrices share their numpy shape
iff their profiles agree. -/
def dims (m : Mat) : List ℕ := m.map List.length

/-- All cells of a matrix, row-major (`ravel`). -/
def matCells (m : Mat) : List V := m.foldr (fun row acc => row ++ acc) []

/-- Model of `np.nanmin` over a whole matrix. -/
def nanminMat (m : Mat) : V := nanminList (matCells m)

/-- Model of `np.nanmax` over a whole matrix. -/
def nanmaxMat (m : Mat) : V := nanmaxList (matCells m)

/-- Elementwise map over a matrix. -/
def mapMat (f : V → V) (m : Mat) : Mat := m.map (fun row => row.map f)

/-- Elementwise combination of two matrices of equal shape. -/
def zipMat (f : V → V → V) (a b : Mat) : Mat :=
  List.zipWith (fun ra rb => List.zipWith f ra rb) a b

/-- Column `j` of a matrix (`m[:, j]`). -/
def getCol (m : Mat) (j : ℕ) : List V := m.map (fun row => row.getD j nan)

/-- Number of columns (`shape[1]`) of a well-formed matrix. -/
def colCount (m : Mat) : ℕ := (m.getD 0 []).length

/-- Matrix transpose (`m.T`). -/
def transposeMat (m : Mat) : Mat :=
  (List.range (colCount m)).map (fun j => getCol m j)

/-- Model of `np.diff(m, axis=1)`: difference of adjacent columns inside each row. -/
def diffCols (m : Mat) : Mat :=
  m.map (fun row => List.zipWith vsub row.tail row)

/-- Model of `np.diff(m, axis=0)`: difference of adjacent rows. -/
def diffRows (m : Mat) : Mat :=
  List.zipWith (fun r2 r1 => List.zipWith vsub r2 r1) m.tail m

/-- Slice `m[:, :-1]`. -/
def dropLastCol (m : Mat) : Mat := m.map List.dropLast

/-- Slice `m[:, k:]`. -/
def dropCols (k : ℕ) (m : Mat) : Mat := m.map (List.drop k)

/-- Slice `m[:, :-k]`. -/
def takeAllButCols (k : ℕ) (m : Mat) : Mat :=
  m.map (fun row => row.take (row.length - k))

/-- Slice `m[:, 1:-1]`. -/
def midCols (m : Mat) : Mat := m.map (fun row => (row.drop 1).dropLast)

/-- Slice `m[1:-1, :]`. -/
def midRows (m : Mat) : Mat := (m.drop 1).dropLast

/-- Per-row value range `abs(np.nanmax(m, axis=1) - np.nanmin(m, axis=1))`
(called `col_range` in the source). -/
def rowRangeList (m : Mat) : List V :=
  m.map (fun row => vabs (vsub (nanmaxList row) (nanminList row)))

/-- Per-column value range `abs(np.nanmax(m, axis=0) - np.nanmin(m, axis=0))`
(called `row_range` in the source). -/
def colRangeList (m : Mat) : List V :=
  (List.range (colCount m)).map (fun j =>
    vabs (vsub (nanmaxList (getCol m j)) (nanminList (getCol m j))))

/-- The central grid entity (class `Data2D` of src/qtplot/data.py): coordinate,
value, setpoint and provenance matrices.  Scalar metadata (names, filename,
timestamp) plays no role in the verified properties and is omitted. -/
structure Data2D where
  x : Mat
  y : Mat
  z : Mat
  x_setpoints : Mat
  y_setpoints : Mat
  row_numbers : Mat
deriving DecidableEq

/-- Model of `Data2D.__init__` (data.py lines 244-296) with the default
`equidistant`/`varying` flags, as used by `DatFile.get_data`: orientation
canonicalization.  `row_range` is the per-column range of `x` (numpy axis 0)
and `col_range` the per-row range (axis 1); if the average of the former
exceeds the average of the latter, all six matrices are transposed. -/
def Data2D.init (x y z x_setpoints y_setpoints row_numbers : Mat) : Data2D :=
  let row_range := colRangeList x
  let col_range := rowRangeList x
  if vgt (vaverage row_range) (vaverage col_range) then
    ⟨transposeMat x, transposeMat y, transposeMat z,
     transposeMat x_setpoints, transposeMat y_setpoints,
     transposeMat row_numbers⟩
  else
    ⟨x, y, z, x_setpoints, y_setpoints, row_numbers⟩

/-- The two finite-difference methods of `xderiv`/`yderiv`. -/
inductive DMethod where
  | midpoint
  | central
deriving DecidableEq

/-- Model of `Data2D.xderiv` (data.py lines 928-940). -/
def Data2D.xderiv (g : Data2D) (method : DMethod) : Data2D :=
  match method with
  | .midpoint =>
      let dx := diffCols g.x
      let ddata := diffCols g.z
      { g with
        x := zipMat vadd (dropLastCol g.x) (mapMat (fun v => vdiv v (num 2)) dx)
        y := dropLastCol g.y
        z := zipMat vdiv ddata dx }
  | .central =>
      { g with
        z := zipMat vdiv (zipMat vsub (dropCols 2 g.z) (takeAllButCols 2 g.z))
               (zipMat vsub (dropCols 2 g.x) (takeAllButCols 2 g.x))
        x := midCols g.x
        y := midCols g.y }

/-- Model of `Data2D.yderiv` (data.py lines 942-954). -/
def Data2D.yderiv (g : Data2D) (method : DMethod) : Data2D :=
  match method with
  | .midpoint =>
      let dy := diffRows g.y
      let ddata := diffRows g.z
      { g with
        x := g.x.dropLast
        y := zipMat vadd g.y.dropLast (mapMat (fun v => vdiv v (num 2)) dy)
        z := zipMat vdiv ddata dy }
  | .central =>
      { g with
        z := zipMat vdiv (zipMat vsub (g.z.drop 2) g.z.dropLast.dropLast)
               (zipMat vsub (g.y.drop 2) g.y.dropLast.dropLast)
        x := midRows g.x
        y := midRows g.y }

/-- Sub-rectangle `m[bottom:top, left:right]` with nonnegative bounds. -/
def sliceMat (bottom top left right : ℤ) (m : Mat) : Mat :=
  ((m.drop bottom.toNat).take (top - bottom).toNat).map
    (fun row => (row.drop left.toNat).take (right - left).toNat)

/-- Model of `Data2D.crop` (data.py lines 686-702).  Negative `right`/`top` wrap
around as in the source; the bounds are validated before any matrix is
touched, so an invalid call raises (here: returns `none`) with the grid
unchanged. -/
def Data2D.crop (g : Data2D) (left right bottom top : ℤ) : Option Data2D :=
  let c : ℤ := (colCount g.z : ℤ)
  let r : ℤ := (g.z.length : ℤ)
  let right := if right < 0 then c + right + 1 else right
  let top := if top < 0 then r + top + 1 else top
  if left < right ∧ bottom < top ∧
     0 ≤ left ∧ left ≤ c ∧ 0 ≤ right ∧ right ≤ c ∧
     0 ≤ bottom ∧ bottom ≤ r ∧ 0 ≤ top ∧ top ≤ r then
    some { g with
      x := sliceMat bottom top left right g.x
      y := sliceMat bottom top left right g.y
      z := sliceMat bottom top left right g.z
      row_numbers := sliceMat bottom top left right g.row_numbers }
  else
    none

/-- Post-state of a `crop` call: the new grid on success, the untouched
grid when the bounds check raised. -/
def Data2D.cropApply (g : Data2D) (left right bottom top : ℤ) : Data2D :=
  (g.crop left right bottom top).getD g

/-- Model of `Data2D.flip_axes` (data.py lines 650-661). -/
def Data2D.flip_axes (g : Data2D) (x_flip y_flip : Bool) : Data2D :=
  let g :=
    if x_flip then
      { g with x := g.x.map List.reverse, y := g.y.map List.reverse,
               z := g.z.map List.reverse,
               row_numbers := g.row_numbers.map List.reverse }
    else g
  if y_flip then
    { g with x := g.x.reverse, y := g.y.reverse, z := g.z.reverse,
             row_numbers := g.row_numbers.reverse }
  else g

/-- Model of `Data2D.flip` (data.py lines 748-750). -/
def Data2D.flip (g : Data2D) (x_flip y_flip : Bool) : Data2D :=
  g.flip_axes x_flip y_flip

/-- Every other element of a list starting with (`keep = true`) or without
(`keep = false`) the head: the row selections `arange(0, n, 2)` and
`arange(1, n, 2)` of `even_odd`. -/
def everyOther {α : Type} (keep : Bool) : List α → List α
  | [] => []
  | a :: t => if keep then a :: everyOther false t else everyOther true t

/-- Model of `Data2D.even_odd` (data.py lines 738-746): keep the even- or
odd-numbered rows of all four cell matrices. -/
def Data2D.even_odd (g : Data2D) (even : Bool) : Data2D :=
  { g with x := everyOther even g.x, y := everyOther even g.y,
           z := everyOther even g.z,
           row_numbers := everyOther even g.row_numbers }

/-- Setup for `Data2D.log` (data.py lines 834-842):  `L` gives the value of the
base-10 logarithm on positive rationals; the NaN/infinity branching of
`np.log10` is explicit: negative arguments give NaN, zero gives −inf. -/
def vlog10 (L : ℚ → ℚ) : V → V
  | nan => nan
  | pinf => pinf
  | ninf => nan
  | num q => if q < 0 then nan else if q = 0 then ninf else num (L q)

/-- Model of `Data2D.log`: optional shift so the minimum maps to `min`, then log10. -/
def Data2D.log (g : Data2D) (L : ℚ → ℚ) (subtract : Bool) (min : ℚ) : Data2D :=
  let minimum := nanminMat g.z
  let z1 := if subtract
            then mapMat (fun v => vadd v (vsub (num min) minimum)) g.z
            else g.z
  { g with z := mapMat (vlog10 L) z1 }

/-- Model of `Data2D.offset` (data.py lines 869-871): `z += offset`. -/
def Data2D.offset (g : Data2D) (off : ℚ) : Data2D :=
  { g with z := mapMat (fun v => vadd v (num off)) g.z }

/-- Model of `np.power` on a float base with a real (here rational) exponent `p`,
with `P` giving the value on positive bases: `pow(x, 0) = 1` for every `x`
including NaN, NaN base gives NaN otherwise, a negative base with a
non-integer exponent gives NaN, `0 ** p` is 0 or +inf by the sign of `p`. -/
def vpow (P : ℚ → ℚ → ℚ) (p : ℚ) (v : V) : V :=
  if p = 0 then num 1
  else match v with
  | nan => nan
  | pinf => if 0 < p then pinf else num 0
  | ninf =>
      if 0 < p then (if p.den = 1 ∧ p.num % 2 ≠ 0 then ninf else pinf)
      else num 0
  | num q =>
      if 0 < q then num (P q p)
      else if q = 0 then (if 0 < p then num 0 else pinf)
      else if p.den = 1 then
        num (if p.num % 2 = 0 then P (-q) p else -(P (-q) p))
      else nan

/-- Model of `Data2D.power` (data.py lines 878-880): `z = np.power(z, power)`. -/
def Data2D.power (g : Data2D) (P : ℚ → ℚ → ℚ) (p : ℚ) : Data2D :=
  { g with z := mapMat (vpow P p) g.z }

/-- Model of `Data2D.scale_data` (data.py lines 887-889): `z *= factor`. -/
def Data2D.scale_data (g : Data2D) (factor : ℚ) : Data2D :=
  { g with z := mapMat (fun v => vmul v (num factor)) g.z }

/-- Model of `Data2D.get_limits` (data.py lines 359-372): nan-aware extrema of the
three matrices, with a degenerate axis (`min == max`, NaN compares false)
replaced by the window (−1, 1). -/
def Data2D.get_limits (g : Data2D) : V × V × V × V × V × V :=
  let xmin := nanminMat g.x
  let xmax := nanmaxMat g.x
  let ymin := nanminMat g.y
  let ymax := nanmaxMat g.y
  let zmin := nanminMat g.z
  let zmax := nanmaxMat g.z
  let xlim := if veq xmin xmax then (num (-1), num 1) else (xmin, xmax)
  let ylim := if veq ymin ymax then (num (-1), num 1) else (ymin, ymax)
  (xlim.1, xlim.2, ylim.1, ylim.2, zmin, zmax)

/-- The in-place normalization of the caller's query array performed by
`Data2D.interpolate` (data.py lines 416-418): on return the array holds
`(p - min) / (max - min)` per axis. -/
def Data2D.interpolateMutate (g : Data2D) (points : List (ℚ × ℚ)) :
    List (V × V) :=
  let lims := g.get_limits
  let xmin := lims.1
  let xmax := lims.2.1
  let ymin := lims.2.2.1
  let ymax := lims.2.2.2.1
  points.map (fun p =>
    (vdiv (vsub (num p.1) xmin) (vsub xmax xmin),
     vdiv (vsub (num p.2) ymin) (vsub ymax ymin)))

/-- One measurement record of a ScanTable, as assembled by
`DatFile.get_data` (data.py lines 189-197): the two setpoint values and the
selected x, y, z data values.  Its row number is its position in the list. -/
structure ScanRecord where
  xsp : ℚ
  ysp : ℚ
  x : ℚ
  y : ℚ
  z : ℚ
deriving DecidableEq

/-- Model of `np.unique`: sorted list of the distinct values. -/
def uniqueSorted (l : List ℚ) : List ℚ :=
  List.insertionSort (· ≤ ·) l.dedup

/-- Column coordinate of a record: index of its x-setpoint in the sorted
unique x-setpoint values (`return_inverse` of `np.unique`). -/
def colIndexOf (rs : List ScanRecord) (q : ℚ) : ℕ :=
  (uniqueSorted (rs.map ScanRecord.xsp)).indexOf q

/-- Row coordinate of a record: index of its y-setpoint in the sorted
unique y-setpoint values. -/
def rowIndexOf (rs : List ScanRecord) (q : ℚ) : ℕ :=
  (uniqueSorted (rs.map ScanRecord.ysp)).indexOf q

/-- The scatter step `pivot[row_ind, col_ind] = data` of `DatFile.get_data`:
records are written into the NaN-initialized grid in file order, so a later
record overwrites an earlier one aimed at the same cell.  The content of
cell `(r, c)` after the assignment: the record (with its row number) of the
last write into that cell, `none` for a never-written (NaN) cell. -/
def pivotCell (rs : List ScanRecord) (r c : ℕ) : Option (ScanRecord × ℕ) :=
  rs.enum.foldl
    (fun acc p =>
      if rowIndexOf rs p.2.ysp = r ∧ colIndexOf rs p.2.xsp = c
      then some (p.2, p.1) else acc)
    none

/-- The single-column branch of `Data2D.get_quadrilaterals`
(data.py lines 496-500), taken when `xc.shape[1] == 1`:
`x = hstack((xc - 1, xc[:,[0]] + 1))` then `x = vstack((x, x[0]))`. -/
def quadXSingle (xc : Mat) : Mat :=
  let a := mapMat (fun v => vsub v (num 1)) xc
  let b := (xc.map (fun row => row.getD 0 nan)).map (fun v => [vadd v (num 1)])
  let x := List.zipWith (· ++ ·) a b
  x ++ [x.getD 0 []]

/-- The single-row branch of `Data2D.get_quadrilaterals`
(data.py lines 524-526), taken when `yc.shape[0] == 1`:
`y = vstack([yc - 1, yc[0] + 1])` then `y = hstack([y, y[:,[0]]])`. -/
def quadYSingle (yc : Mat) : Mat :=
  let a := mapMat (fun v => vsub v (num 1)) yc
  let b := (yc.getD 0 []).map (fun v => vadd v (num 1))
  let y := a ++ [b]
  y.map (fun row => row ++ [row.getD 0 nan])

/-- Model of `np.take(l, i, axis=0)`: a negative index wraps around, so −1 picks the
last element.  This is how `interpolate` reads `tri.simplices` and
`tri.transform` at the −1 returned by `find_simplex` for a query point
outside the convex hull. -/
def npTakeRow {α : Type} (l : List α) (i : ℤ) (d : α) : α :=
  if i < 0 then l.getD (l.length - (-i).toNat) d else l.getD i.toNat d

/-- Barycentric evaluation of `Data2D.interpolate` (data.py lines 420-443)
after the query points have been normalized.  The Delaunay triangulation
itself is scipy-external, so its outputs are taken as data: the simplex
vertex-index triples, the affine transforms (two matrix rows and the
offset vertex `transform[2]`), the surviving non-NaN cell values, and for
each query point the simplex index returned by `find_simplex` (−1 for a
point outside the convex hull).  The disabled masking line 441 of the
source is faithfully omitted. -/
def interpolateValues (simplices : List (ℕ × ℕ × ℕ))
    (transforms : List ((ℚ × ℚ) × (ℚ × ℚ) × (ℚ × ℚ)))
    (no_nan_values : List ℚ)
    (points : List ((ℚ × ℚ) × ℤ)) : List ℚ :=
  points.map (fun pc =>
    let p := pc.1
    let s := pc.2
    let idx := npTakeRow simplices s (0, 0, 0)
    let t := npTakeRow transforms s ((0, 0), (0, 0), (0, 0))
    let d1 := p.1 - t.2.2.1
    let d2 := p.2 - t.2.2.2
    let b0 := t.1.1 * d1 + t.1.2 * d2
    let b1 := t.2.1.1 * d1 + t.2.1.2 * d2
    let w2 := 1 - (b0 + b1)
    no_nan_values.getD idx.1 0 * b0 +
      no_nan_values.getD idx.2.1 0 * b1 +
      no_nan_values.getD idx.2.2 0 * w2)

/-- The four distribution families of `create_kernel` (data.py 213-236). -/
inductive Distr where
  | gaussian
  | exponential
  | lorentzian
  | thermal
deriving DecidableEq

/-- The distribution functions of `create_kernel`, over the reals. -/
noncomputable def Distr.func : Distr → ℝ → ℝ
  | .gaussian => fun r => Real.exp (-(r ^ 2) / 2)
  | .exponential => fun r => Real.exp (-|r| * Real.sqrt 2)
  | .lorentzian => fun r => 1 / (r ^ 2 + 1)
  | .thermal => fun r => Real.exp r / (1 * (1 + Real.exp r) ^ 2)

/-- The half-width `hx = np.floor((dev * cutoff) / 2.0)` of `create_kernel`
(nonnegative for the valid parameters `dev > 0`, `cutoff ≥ 0`). -/
def kernelHalf (dev cutoff : ℚ) : ℕ :=
  (Int.floor ((dev * cutoff) / 2)).toNat

/-- One axis of the kernel support:
`np.linspace(-h, h, h * 2 + 1) / dev`, then replaced by `zeros(1)` when it
has a single sample. -/
def kernelAxis (dev cutoff : ℚ) : List ℚ :=
  let h := kernelHalf dev cutoff
  let xs := (List.range (2 * h + 1)).map
    (fun (i : ℕ) => ((i : ℚ) - (h : ℚ)) / dev)
  if xs.length = 1 then [0] else xs

/-- The unnormalized kernel `func(np.sqrt(xv**2 + yv**2))` on the meshgrid
of the two axes (rows run over y, columns over x). -/
noncomputable def kernelRaw (d : Distr) (x_dev y_dev cutoff : ℚ) :
    List (List ℝ) :=
  (kernelAxis y_dev cutoff).map (fun (yv : ℚ) =>
    (kernelAxis x_dev cutoff).map (fun (xv : ℚ) =>
      d.func (Real.sqrt ((xv : ℝ) ^ 2 + (yv : ℝ) ^ 2))))

/-- Sum of all entries of a real matrix. -/
def sumMatR (m : List (List ℝ)) : ℝ := (m.map List.sum).sum

/-- Model of `create_kernel` (data.py lines 213-236): the kernel divided by its sum. -/
noncomputable def create_kernel (d : Distr) (x_dev y_dev cutoff : ℚ) :
    List (List ℝ) :=
  let k := kernelRaw d x_dev y_dev cutoff
  k.map (fun row => row.map (fun v => v / sumMatR k))

lemma rect_mapMat {m : Mat} {r c : ℕ} (f : V → V) (h : rect m r c) :
    rect (mapMat f m) r c := by
  obtain ⟨hl, hrow⟩ := h
  refine ⟨by simpa [mapMat] using hl, ?_⟩
  intro row hm
  simp only [mapMat, List.mem_map] at hm
  obtain ⟨row0, h0, rfl⟩ := hm
  simpa using hrow row0 h0

lemma rect_zipMat_min (f : V → V → V) :
    ∀ (a b : Mat) (ra rb c : ℕ), rect a ra c → rect b rb c →
      rect (zipMat f a b) (min ra rb) c := by
  intro a
  induction a with
  | nil =>
      intro b ra rb c ha _
      have h0 : ra = 0 := by simpa using ha.1.symm
      exact ⟨by simp [zipMat, h0], by simp [zipMat]⟩
  | cons x ta ih =>
      intro b ra rb c ha hb
      cases b with
      | nil =>
          have h0 : rb = 0 := by simpa using hb.1.symm
          exact ⟨by simp [zipMat, h0], by simp [zipMat]⟩
      | cons y tb =>
          have hta : rect ta (ra - 1) c :=
            ⟨by have := ha.1; simp at this; omega,
             fun row hm => ha.2 row (List.mem_cons_of_mem _ hm)⟩
          have htb : rect tb (rb - 1) c :=
            ⟨by have := hb.1; simp at this; omega,
             fun row hm => hb.2 row (List.mem_cons_of_mem _ hm)⟩
          have hrec := ih tb (ra - 1) (rb - 1) c hta htb
          have hx : x.length = c := ha.2 x (List.mem_cons_self _ _)
          have hy : y.length = c := hb.2 y (List.mem_cons_self _ _)
          constructor
          · have h1 := hrec.1
            have h2 := ha.1
            have h3 := hb.1
            simp only [zipMat, List.zipWith_cons_cons, List.length_cons] at h1 h2 h3 ⊢
            omega
          · intro row hm
            simp only [zipMat, List.zipWith_cons_cons, List.mem_cons] at hm
            rcases hm with rfl | hm
            · simp [hx, hy]
            · exact hrec.2 row hm

lemma rect_zipMat {a b : Mat} {r c : ℕ} (f : V → V → V)
    (ha : rect a r c) (hb : rect b r c) : rect (zipMat f a b) r c := by
  have := rect_zipMat_min f a b r r c ha hb
  rwa [Nat.min_self] at this

lemma rect_tail {m : Mat} {r c : ℕ} (h : rect m r c) :
    rect m.tail (r - 1) c := by
  obtain ⟨hl, hrow⟩ := h
  exact ⟨by simp [hl], fun row hm => hrow row (List.mem_of_mem_tail hm)⟩

lemma rect_dropLastRows {m : Mat} {r c : ℕ} (h : rect m r c) :
    rect m.dropLast (r - 1) c := by
  obtain ⟨hl, hrow⟩ := h
  exact ⟨by simp [hl], fun row hm => hrow row (List.dropLast_subset _ hm)⟩

lemma rect_dropRows {m : Mat} {r c : ℕ} (k : ℕ) (h : rect m r c) :
    rect (m.drop k) (r - k) c := by
  obtain ⟨hl, hrow⟩ := h
  exact ⟨by simp [hl], fun row hm => hrow row (List.drop_subset _ _ hm)⟩

lemma rect_midRows {m : Mat} {r c : ℕ} (h : rect m r c) :
    rect (midRows m) (r - 2) c := by
  have h1 := rect_dropLastRows (rect_dropRows 1 h)
  have : r - 1 - 1 = r - 2 := by omega
  simpa [midRows, this] using h1

lemma rect_diffCols {m : Mat} {r c : ℕ} (h : rect m r c) :
    rect (diffCols m) r (c - 1) := by
  obtain ⟨hl, hrow⟩ := h
  refine ⟨by simpa [diffCols] using hl, ?_⟩
  intro row hm
  simp only [diffCols, List.mem_map] at hm
  obtain ⟨row0, h0, rfl⟩ := hm
  have hlen := hrow row0 h0
  simp [List.length_zipWith, List.length_tail, hlen]

lemma diffRows_eq_zipMat (m : Mat) : diffRows m = zipMat vsub m.tail m := rfl

lemma rect_diffRows {m : Mat} {r c : ℕ} (h : rect m r c) :
    rect (diffRows m) (r - 1) c := by
  rw [diffRows_eq_zipMat]
  have := rect_zipMat_min vsub m.tail m (r - 1) r c (rect_tail h) h
  have hmin : min (r - 1) r = r - 1 := by omega
  rwa [hmin] at this

lemma rect_dropLastCol {m : Mat} {r c : ℕ} (h : rect m r c) :
    rect (dropLastCol m) r (c - 1) := by
  obtain ⟨hl, hrow⟩ := h
  refine ⟨by simpa [dropLastCol] using hl, ?_⟩
  intro row hm
  simp only [dropLastCol, List.mem_map] at hm
  obtain ⟨row0, h0, rfl⟩ := hm
  simp [hrow row0 h0]

lemma rect_dropCols {m : Mat} {r c : ℕ} (k : ℕ) (h : rect m r c) :
    rect (dropCols k m) r (c - k) := by
  obtain ⟨hl, hrow⟩ := h
  refine ⟨by simpa [dropCols] using hl, ?_⟩
  intro row hm
  simp only [dropCols, List.mem_map] at hm
  obtain ⟨row0, h0, rfl⟩ := hm
  simp [hrow row0 h0]

lemma rect_takeAllButCols {m : Mat} {r c : ℕ} (k : ℕ) (h : rect m r c) :
    rect (takeAllButCols k m) r (c - k) := by
  obtain ⟨hl, hrow⟩ := h
  refine ⟨by simpa [takeAllButCols] using hl, ?_⟩
  intro row hm
  simp only [takeAllButCols, List.mem_map] at hm
  obtain ⟨row0, h0, rfl⟩ := hm
  simp [hrow row0 h0]

lemma rect_midCols {m : Mat} {r c : ℕ} (h : rect m r c) :
    rect (midCols m) r (c - 2) := by
  obtain ⟨hl, hrow⟩ := h
  refine ⟨by simpa [midCols] using hl, ?_⟩
  intro row hm
  simp only [midCols, List.mem_map] at hm
  obtain ⟨row0, h0, rfl⟩ := hm
  have := hrow row0 h0
  simp [this]
  omega

lemma rect_flipCols {m : Mat} {r c : ℕ} (h : rect m r c) :
    rect (m.map List.reverse) r c := by
  obtain ⟨hl, hrow⟩ := h
  refine ⟨by simpa using hl, ?_⟩
  intro row hm
  simp only [List.mem_map] at hm
  obtain ⟨row0, h0, rfl⟩ := hm
  simp [hrow row0 h0]

lemma rect_flipRows {m : Mat} {r c : ℕ} (h : rect m r c) :
    rect m.reverse r c := by
  obtain ⟨hl, hrow⟩ := h
  exact ⟨by simp [hl], fun row hm => hrow row (List.mem_reverse.mp hm)⟩

lemma length_everyOther {α : Type} :
    ∀ (l : List α) (keep : Bool),
      (everyOther keep l).length = (l.length + if keep then 1 else 0) / 2 := by
  intro l
  induction l with
  | nil => intro keep; cases keep <;> simp [everyOther]
  | cons a t ih =>
      intro keep
      cases keep
      · simp [everyOther, ih]
      · simp [everyOther, ih]
        omega

lemma mem_everyOther {α : Type} :
    ∀ (l : List α) (keep : Bool) (x : α), x ∈ everyOther keep l → x ∈ l := by
  intro l
  induction l with
  | nil => intro keep x h; simp [everyOther] at h
  | cons a t ih =>
      intro keep x h
      cases keep <;> simp only [everyOther] at h
      · exact List.mem_cons_of_mem _ (ih _ _ h)
      · rcases List.mem_cons.mp h with rfl | h
        · exact List.mem_cons_self _ _
        · exact List.mem_cons_of_mem _ (ih _ _ h)

lemma rect_everyOther {m : Mat} {r c : ℕ} (keep : Bool) (h : rect m r c) :
    rect (everyOther keep m) ((r + if keep then 1 else 0) / 2) c := by
  obtain ⟨hl, hrow⟩ := h
  exact ⟨by rw [length_everyOther, hl],
         fun row hm => hrow row (mem_everyOther _ _ _ hm)⟩

lemma colCount_eq {m : Mat} {r c : ℕ} (h : rect m r c) (hr : 0 < r) :
    colCount m = c := by
  obtain ⟨hl, hrow⟩ := h
  cases m with
  | nil => simp at hl; omega
  | cons row t => exact hrow row (List.mem_cons_self _ _)

lemma rect_sliceMat {m : Mat} {r c : ℕ} {bottom top left right : ℤ}
    (h : rect m r c) (hb : 0 ≤ bottom) (hbt : bottom ≤ top)
    (ht : top ≤ (r : ℤ)) (hl : 0 ≤ left) (hlr : left ≤ right)
    (hr : right ≤ (c : ℤ)) :
    rect (sliceMat bottom top left right m)
      (top - bottom).toNat (right - left).toNat := by
  obtain ⟨hlen, hrow⟩ := h
  constructor
  · simp only [sliceMat, List.length_map, List.length_take, List.length_drop,
      hlen]
    omega
  · intro row hm
    simp only [sliceMat, List.mem_map] at hm
    obtain ⟨row0, h0, rfl⟩ := hm
    have hmem : row0 ∈ m :=
      List.drop_subset _ _ (List.take_subset _ _ h0)
    have := hrow row0 hmem
    simp only [List.length_take, List.length_drop, this]
    omega

lemma rect_dropLast2 {m : Mat} {r c : ℕ} (h : rect m r c) :
    rect m.dropLast.dropLast (r - 2) c := by
  have h1 := rect_dropLastRows (rect_dropLastRows h)
  have : r - 1 - 1 = r - 2 := by omega
  rwa [this] at h1

lemma xderivMid_rect {g : Data2D} {r c : ℕ}
    (hx : rect g.x r c) (hy : rect g.y r c) (hz : rect g.z r c) :
    rect (g.xderiv .midpoint).x r (c - 1) ∧
    rect (g.xderiv .midpoint).y r (c - 1) ∧
    rect (g.xderiv .midpoint).z r (c - 1) := by
  refine ⟨?_, ?_, ?_⟩
  · exact rect_zipMat vadd (rect_dropLastCol hx)
      (rect_mapMat _ (rect_diffCols hx))
  · exact rect_dropLastCol hy
  · exact rect_zipMat vdiv (rect_diffCols hz) (rect_diffCols hx)

lemma xderivCentral_rect {g : Data2D} {r c : ℕ}
    (hx : rect g.x r c) (hy : rect g.y r c) (hz : rect g.z r c) :
    rect (g.xderiv .central).x r (c - 2) ∧
    rect (g.xderiv .central).y r (c - 2) ∧
    rect (g.xderiv .central).z r (c - 2) := by
  refine ⟨rect_midCols hx, rect_midCols hy, ?_⟩
  exact rect_zipMat vdiv
    (rect_zipMat vsub (rect_dropCols 2 hz) (rect_takeAllButCols 2 hz))
    (rect_zipMat vsub (rect_dropCols 2 hx) (rect_takeAllButCols 2 hx))

lemma yderivMid_rect {g : Data2D} {r c : ℕ}
    (hx : rect g.x r c) (hy : rect g.y r c) (hz : rect g.z r c) :
    rect (g.yderiv .midpoint).x (r - 1) c ∧
    rect (g.yderiv .midpoint).y (r - 1) c ∧
    rect (g.yderiv .midpoint).z (r - 1) c := by
  refine ⟨rect_dropLastRows hx, ?_, ?_⟩
  · exact rect_zipMat vadd (rect_dropLastRows hy)
      (rect_mapMat _ (rect_diffRows hy))
  · exact rect_zipMat vdiv (rect_diffRows hz) (rect_diffRows hy)

lemma yderivCentral_rect {g : Data2D} {r c : ℕ}
    (hx : rect g.x r c) (hy : rect g.y r c) (hz : rect g.z r c) :
    rect (g.yderiv .central).x (r - 2) c ∧
    rect (g.yderiv .central).y (r - 2) c ∧
    rect (g.yderiv .central).z (r - 2) c := by
  refine ⟨rect_midRows hx, rect_midRows hy, ?_⟩
  exact rect_zipMat vdiv
    (rect_zipMat vsub (rect_dropRows 2 hz) (rect_dropLast2 hz))
    (rect_zipMat vsub (rect_dropRows 2 hy) (rect_dropLast2 hy))

lemma crop_some_rect {g : Data2D} {r c : ℕ}
    (hx : rect g.x r c) (hy : rect g.y r c) (hz : rect g.z r c)
    (hrn : rect g.row_numbers r c) :
    ∀ (left right bottom top : ℤ) (g' : Data2D),
      g.crop left right bottom top = some g' →
      ∃ r' c', rect g'.x r' c' ∧ rect g'.y r' c' ∧ rect g'.z r' c' ∧
        rect g'.row_numbers r' c' := by
  intro left right bottom top g' hc
  simp only [Data2D.crop] at hc
  split at hc <;> split at hc <;> split at hc <;>
    try exact Option.noConfusion hc
  all_goals
    rename_i hcond
    obtain ⟨h1, h2, h3, h4, h5, h6, h7, h8, h9, h10⟩ := hcond
    injection hc with hg'
    subst hg'
    have hr0 : 0 < r := by
      have := hz.1
      omega
    have hcc : ((colCount g.z : ℤ)) = (c : ℤ) := by
      rw [colCount_eq hz hr0]
    have hzr : ((g.z.length : ℤ)) = (r : ℤ) := by
      rw [hz.1]
    exact ⟨_, _,
      rect_sliceMat hx (by omega) (by omega) (by omega) (by omega)
        (by omega) (by omega),
      rect_sliceMat hy (by omega) (by omega) (by omega) (by omega)
        (by omega) (by omega),
      rect_sliceMat hz (by omega) (by omega) (by omega) (by omega)
        (by omega) (by omega),
      rect_sliceMat hrn (by omega) (by omega) (by omega) (by omega)
        (by omega) (by omega)⟩

lemma flip_rect {g : Data2D} {r c : ℕ}
    (hx : rect g.x r c) (hy : rect g.y r c) (hz : rect g.z r c)
    (hrn : rect g.row_numbers r c) (fx fy : Bool) :
    rect (g.flip fx fy).x r c ∧ rect (g.flip fx fy).y r c ∧
    rect (g.flip fx fy).z r c ∧ rect (g.flip fx fy).row_numbers r c := by
  cases fx <;> cases fy <;>
    simp only [Data2D.flip, Data2D.flip_axes, if_true, if_false,
      Bool.false_eq_true] <;>
    exact ⟨by first
            | exact hx
            | exact rect_flipRows hx
            | exact rect_flipCols hx
            | exact rect_flipRows (rect_flipCols hx),
           by first
            | exact hy
            | exact rect_flipRows hy
            | exact rect_flipCols hy
            | exact rect_flipRows (rect_flipCols hy),
           by first
            | exact hz
            | exact rect_flipRows hz
            | exact rect_flipCols hz
            | exact rect_flipRows (rect_flipCols hz),
           by first
            | exact hrn
            | exact rect_flipRows hrn
            | exact rect_flipCols hrn
            | exact rect_flipRows (rect_flipCols hrn)⟩

/-- A concrete 2×2 grid with all six matrices equal. -/
def grid2x2 : Data2D :=
  ⟨[[num 0, num 1], [num 2, num 3]], [[num 0, num 1], [num 2, num 3]],
   [[num 0, num 1], [num 2, num 3]], [[num 0, num 1], [num 2, num 3]],
   [[num 0, num 1], [num 2, num 3]], [[num 0, num 1], [num 2, num 3]]⟩

/-- C2 (corrected): after xderiv and yderiv the matrices X, Y, Z share their
new shape (midpoint: the varied dimension shrinks by 1; 2nd-order central
difference: by 2) but RowNumbers is left untouched at its old shape, so the
four-matrix shape-sharing invariant claimed by the spec does not survive
the derivative operations; crop, flip and even_odd do keep all four
matrices at one common shape. -/
theorem C2_shape_invariant (g : Data2D) (r c : ℕ)
    (hx : rect g.x r c) (hy : rect g.y r c) (hz : rect g.z r c)
    (hrn : rect g.row_numbers r c) :
    (rect (g.xderiv .midpoint).x r (c - 1) ∧
      rect (g.xderiv .midpoint).y r (c - 1) ∧
      rect (g.xderiv .midpoint).z r (c - 1) ∧
      (g.xderiv .midpoint).row_numbers = g.row_numbers) ∧
    (rect (g.xderiv .central).x r (c - 2) ∧
      rect (g.xderiv .central).y r (c - 2) ∧
      rect (g.xderiv .central).z r (c - 2) ∧
      (g.xderiv .central).row_numbers = g.row_numbers) ∧
    (rect (g.yderiv .midpoint).x (r - 1) c ∧
      rect (g.yderiv .midpoint).y (r - 1) c ∧
      rect (g.yderiv .midpoint).z (r - 1) c ∧
      (g.yderiv .midpoint).row_numbers = g.row_numbers) ∧
    (rect (g.yderiv .central).x (r - 2) c ∧
      rect (g.yderiv .central).y (r - 2) c ∧
      rect (g.yderiv .central).z (r - 2) c ∧
      (g.yderiv .central).row_numbers = g.row_numbers) ∧
    (∀ (left right bottom top : ℤ) (g' : Data2D),
      g.crop left right bottom top = some g' →
      ∃ r' c', rect g'.x r' c' ∧ rect g'.y r' c' ∧ rect g'.z r' c' ∧
        rect g'.row_numbers r' c') ∧
    (∀ fx fy, rect (g.flip fx fy).x r c ∧ rect (g.flip fx fy).y r c ∧
      rect (g.flip fx fy).z r c ∧ rect (g.flip fx fy).row_numbers r c) ∧
    (∀ e, rect (g.even_odd e).x ((r + if e then 1 else 0) / 2) c ∧
      rect (g.even_odd e).y ((r + if e then 1 else 0) / 2) c ∧
      rect (g.even_odd e).z ((r + if e then 1 else 0) / 2) c ∧
      rect (g.even_odd e).row_numbers ((r + if e then 1 else 0) / 2) c) := by
  obtain ⟨a1, a2, a3⟩ := xderivMid_rect hx hy hz
  obtain ⟨b1, b2, b3⟩ := xderivCentral_rect hx hy hz
  obtain ⟨d1, d2, d3⟩ := yderivMid_rect hx hy hz
  obtain ⟨e1, e2, e3⟩ := yderivCentral_rect hx hy hz
  exact ⟨⟨a1, a2, a3, rfl⟩, ⟨b1, b2, b3, rfl⟩, ⟨d1, d2, d3, rfl⟩,
    ⟨e1, e2, e3, rfl⟩, crop_some_rect hx hy hz hrn,
    fun fx fy => flip_rect hx hy hz hrn fx fy,
    fun e => ⟨rect_everyOther e hx, rect_everyOther e hy,
      rect_everyOther e hz, rect_everyOther e hrn⟩⟩

/-- C2 witness: the shape facts at a concrete 2×2 grid. -/
theorem C2_shape_invariant_witness :
    rect grid2x2.z 2 2 ∧ rect (grid2x2.xderiv .midpoint).z 2 1 ∧
      (grid2x2.xderiv .midpoint).row_numbers = grid2x2.row_numbers := by
  have h := C2_shape_invariant grid2x2 2 2 (by decide) (by decide)
    (by decide) (by decide)
  exact ⟨by decide, h.1.2.2.1, h.1.2.2.2⟩

/-- C2 counterexample: on a 2×2 grid, after `xderiv(midpoint)` the Z matrix
is 2×1 while RowNumbers is still 2×2, so the four matrices do not all share
one shape as the claim states. -/
theorem C2_cex :
    ¬ dims (grid2x2.xderiv .midpoint).z =
        dims (grid2x2.xderiv .midpoint).row_numbers := by
  decide

/-- The concrete 3×3 grid of the spec scenario: z = [[1,2,3],[4,5,6],[7,8,9]],
x = [0,1,2] tiled by row, y = [0,1,2] tiled by column. -/
def grid3x3 : Data2D :=
  ⟨[[num 0, num 1, num 2], [num 0, num 1, num 2], [num 0, num 1, num 2]],
   [[num 0, num 0, num 0], [num 1, num 1, num 1], [num 2, num 2, num 2]],
   [[num 1, num 2, num 3], [num 4, num 5, num 6], [num 7, num 8, num 9]],
   [[num 0, num 1, num 2], [num 0, num 1, num 2], [num 0, num 1, num 2]],
   [[num 0, num 0, num 0], [num 1, num 1, num 1], [num 2, num 2, num 2]],
   [[num 0, num 1, num 2], [num 3, num 4, num 5], [num 6, num 7, num 8]]⟩

/-- C5 (confirmed): the derivative shape laws — xderiv(midpoint) on an
R×C grid gives R×(C−1), yderiv(midpoint) gives (R−1)×C, the 2nd-order
central variants give R×(C−2) and (R−2)×C — and on the concrete 3×3 grid
with z = [[1,2,3],[4,5,6],[7,8,9]] and x = [0,1,2] tiled by row,
xderiv(midpoint) produces a 3×2 Z matrix with every value equal to 1. -/
theorem C5_derivative_shape_law :
    (∀ (g : Data2D) (r c : ℕ), rect g.x r c → rect g.y r c → rect g.z r c →
      rect (g.xderiv .midpoint).z r (c - 1) ∧
      rect (g.yderiv .midpoint).z (r - 1) c ∧
      rect (g.xderiv .central).z r (c - 2) ∧
      rect (g.yderiv .central).z (r - 2) c) ∧
    ((grid3x3.xderiv .midpoint).z =
        [[num 1, num 1], [num 1, num 1], [num 1, num 1]] ∧
      dims (grid3x3.xderiv .midpoint).z = [2, 2, 2]) := by
  constructor
  · intro g r c hx hy hz
    exact ⟨(xderivMid_rect hx hy hz).2.2, (yderivMid_rect hx hy hz).2.2,
      (xderivCentral_rect hx hy hz).2.2, (yderivCentral_rect hx hy hz).2.2⟩
  · constructor
    · norm_num [grid3x3, Data2D.xderiv, diffCols, dropLastCol, zipMat, mapMat,
        vsub, vadd, vneg, vdiv]
    · decide

/-- C5 witness: the quantified shape laws applied to a concrete 2×2 grid. -/
theorem C5_derivative_shape_law_witness :
    rect (grid2x2.xderiv .midpoint).z 2 1 ∧
      rect (grid2x2.yderiv .midpoint).z 1 2 := by
  have h := C5_derivative_shape_law.1 grid2x2 2 2 (by decide) (by decide)
    (by decide)
  exact ⟨h.1, h.2.1⟩

/-- A degenerate 1×1 grid. -/
def grid1x1 : Data2D :=
  ⟨[[num 0]], [[num 0]], [[num 0]], [[num 0]], [[num 0]], [[num 0]]⟩

/-- C6 (corrected): on any grid with at least 2 rows and 2 columns,
`crop(left=0, right=2, bottom=0, top=2)` succeeds and every one of the four
cell matrices of the result is exactly 2×2; an invalid bound set
(non-monotonic or out of matrix range) makes `crop` raise with the grid
left completely unchanged.  On a grid smaller than 2×2 the same call is an
out-of-range bound set and raises instead of yielding a 2×2 result. -/
theorem C6_crop_law (g : Data2D) (r c : ℕ)
    (hx : rect g.x r c) (hy : rect g.y r c) (hz : rect g.z r c)
    (hrn : rect g.row_numbers r c) :
    (2 ≤ r → 2 ≤ c →
      ∃ g', g.crop 0 2 0 2 = some g' ∧ rect g'.x 2 2 ∧ rect g'.y 2 2 ∧
        rect g'.z 2 2 ∧ rect g'.row_numbers 2 2) ∧
    (∀ left right bottom top : ℤ, 0 ≤ right → 0 ≤ top →
      (right ≤ left ∨ top ≤ bottom ∨ left < 0 ∨ (c : ℤ) < right ∨
        bottom < 0 ∨ (r : ℤ) < top) →
      g.crop left right bottom top = none) ∧
    (∀ left right bottom top : ℤ,
      g.crop left right bottom top = none →
      g.cropApply left right bottom top = g) := by
  have h2 : ((g.z.length : ℤ)) = (r : ℤ) := by rw [hz.1]
  refine ⟨?_, ?_, ?_⟩
  · intro hr2 hc2
    have hr0 : 0 < r := by omega
    have h1 : ((colCount g.z : ℤ)) = (c : ℤ) := by rw [colCount_eq hz hr0]
    have heq : g.crop 0 2 0 2 =
        (if (0 : ℤ) < 2 ∧ (0 : ℤ) < 2 ∧ (0 : ℤ) ≤ 0 ∧
            (0 : ℤ) ≤ (colCount g.z : ℤ) ∧ (0 : ℤ) ≤ 2 ∧
            (2 : ℤ) ≤ (colCount g.z : ℤ) ∧ (0 : ℤ) ≤ 0 ∧
            (0 : ℤ) ≤ (g.z.length : ℤ) ∧ (0 : ℤ) ≤ 2 ∧
            (2 : ℤ) ≤ (g.z.length : ℤ) then
          some { g with
            x := sliceMat 0 2 0 2 g.x
            y := sliceMat 0 2 0 2 g.y
            z := sliceMat 0 2 0 2 g.z
            row_numbers := sliceMat 0 2 0 2 g.row_numbers }
        else none) := rfl
    rw [heq, if_pos (by omega)]
    exact ⟨_, rfl,
      rect_sliceMat hx (by omega) (by omega) (by omega) (by omega)
        (by omega) (by omega),
      rect_sliceMat hy (by omega) (by omega) (by omega) (by omega)
        (by omega) (by omega),
      rect_sliceMat hz (by omega) (by omega) (by omega) (by omega)
        (by omega) (by omega),
      rect_sliceMat hrn (by omega) (by omega) (by omega) (by omega)
        (by omega) (by omega)⟩
  · intro left right bottom top hrt0 ht0 hinv
    have heq2 : g.crop left right bottom top =
        (if left < right ∧ bottom < top ∧ 0 ≤ left ∧
            left ≤ (colCount g.z : ℤ) ∧ 0 ≤ right ∧
            right ≤ (colCount g.z : ℤ) ∧ 0 ≤ bottom ∧
            bottom ≤ (g.z.length : ℤ) ∧ 0 ≤ top ∧
            top ≤ (g.z.length : ℤ) then
          some { g with
            x := sliceMat bottom top left right g.x
            y := sliceMat bottom top left right g.y
            z := sliceMat bottom top left right g.z
            row_numbers := sliceMat bottom top left right g.row_numbers }
        else none) := by
      simp only [Data2D.crop]
      rw [if_neg (by omega : ¬ right < 0), if_neg (by omega : ¬ top < 0)]
    by_cases hr0 : 0 < r
    · have h1 : ((colCount g.z : ℤ)) = (c : ℤ) := by rw [colCount_eq hz hr0]
      rw [heq2, if_neg (by omega)]
    · rw [heq2, if_neg (by omega)]
  · intro left right bottom top hnone
    simp [Data2D.cropApply, hnone]

/-- C6 witness: the successful 2×2 crop on a concrete 2×2 grid. -/
theorem C6_crop_law_witness :
    ∃ g', grid2x2.crop 0 2 0 2 = some g' ∧ rect g'.x 2 2 ∧ rect g'.y 2 2 ∧
      rect g'.z 2 2 ∧ rect g'.row_numbers 2 2 :=
  (C6_crop_law grid2x2 2 2 (by decide) (by decide) (by decide)
    (by decide)).1 (by omega) (by omega)

/-- C6 counterexample: on a 1×1 grid, `crop(0, 2, 0, 2)` does not yield a
2×2 result — the bound 2 exceeds the matrix range, so the call raises. -/
theorem C6_cex : grid1x1.crop 0 2 0 2 = none := rfl

/-- True on finite (`num`) values. -/
def V.isNum : V → Bool
  | num _ => true
  | _ => false

/-- NaN-ness of the cell `(i, j)` of a matrix (out-of-range reads a
non-NaN placeholder). -/
def nanAt (m : Mat) (i j : ℕ) : Bool :=
  ((m.getD i []).getD j (num 0)).isNan

lemma isNan_vadd_const (v : V) (o : ℚ) : (vadd v (num o)).isNan = v.isNan := by
  cases v <;> rfl

lemma isNan_vadd_of_nan (v s : V) (hv : v.isNan = true) :
    (vadd v s).isNan = true := by
  cases v with
  | nan => cases s <;> rfl
  | num a => simp [V.isNan] at hv
  | pinf => simp [V.isNan] at hv
  | ninf => simp [V.isNan] at hv

lemma isNan_vmul_const (v : V) (f : ℚ)
    (hv : v.isNan = true ∨ v.isNum = true) :
    (vmul v (num f)).isNan = v.isNan := by
  cases v with
  | nan => rfl
  | num a => rfl
  | pinf => rcases hv with h | h <;> simp [V.isNan, V.isNum] at h
  | ninf => rcases hv with h | h <;> simp [V.isNan, V.isNum] at h

lemma isNan_vlog10_of_nan (L : ℚ → ℚ) (v : V) (hv : v.isNan = true) :
    (vlog10 L v).isNan = true := by
  cases v with
  | nan => rfl
  | num a => simp [V.isNan] at hv
  | pinf => simp [V.isNan] at hv
  | ninf => simp [V.isNan] at hv

lemma isNan_vpow_of_nan (P : ℚ → ℚ → ℚ) (p : ℚ) (hp : p ≠ 0) (v : V)
    (hv : v.isNan = true) : (vpow P p v).isNan = true := by
  cases v with
  | nan => show (if p = 0 then num 1 else nan).isNan = true
           rw [if_neg hp]
           rfl
  | num a => simp [V.isNan] at hv
  | pinf => simp [V.isNan] at hv
  | ninf => simp [V.isNan] at hv

lemma nanAt_mapMat_eq (f : V → V) (m : Mat)
    (h : ∀ row ∈ m, ∀ v ∈ row, (f v).isNan = v.isNan) (i j : ℕ) :
    nanAt (mapMat f m) i j = nanAt m i j := by
  cases hrow : m[i]? with
  | none =>
      have h2 : (m.map (fun row => row.map f))[i]? = none := by
        simp [List.getElem?_map, hrow]
      simp [nanAt, mapMat, List.getD_eq_getElem?_getD, hrow, h2]
  | some row =>
      have hmem : row ∈ m := List.getElem?_mem hrow
      have h2 : (m.map (fun row => row.map f))[i]? = some (row.map f) := by
        simp [List.getElem?_map, hrow]
      cases hv : row[j]? with
      | none =>
          have h3 : (row.map f)[j]? = none := by
            simp [List.getElem?_map, hv]
          simp [nanAt, mapMat, List.getD_eq_getElem?_getD, hrow, h2, hv, h3]
      | some v =>
          have hvmem : v ∈ row := List.getElem?_mem hv
          have h3 : (row.map f)[j]? = some (f v) := by
            simp [List.getElem?_map, hv]
          simp [nanAt, mapMat, List.getD_eq_getElem?_getD, hrow, h2, hv, h3,
            h row hmem v hvmem]

lemma nanAt_mapMat_mono (f : V → V) (m : Mat)
    (h : ∀ v, v.isNan = true → (f v).isNan = true) (i j : ℕ)
    (hm : nanAt m i j = true) : nanAt (mapMat f m) i j = true := by
  cases hrow : m[i]? with
  | none =>
      exfalso
      simp [nanAt, List.getD_eq_getElem?_getD, hrow, V.isNan] at hm
  | some row =>
      cases hv : row[j]? with
      | none =>
          exfalso
          simp [nanAt, List.getD_eq_getElem?_getD, hrow, hv, V.isNan] at hm
      | some v =>
          have hvn : v.isNan = true := by
            simpa [nanAt, List.getD_eq_getElem?_getD, hrow, hv] using hm
          have h2 : (m.map (fun row => row.map f))[i]? = some (row.map f) := by
            simp [List.getElem?_map, hrow]
          have h3 : (row.map f)[j]? = some (f v) := by
            simp [List.getElem?_map, hv]
          simp [nanAt, mapMat, List.getD_eq_getElem?_getD, h2, h3, h v hvn]

lemma isNan_vmul_const_nz (v : V) (f : ℚ) (hf : f ≠ 0) :
    (vmul v (num f)).isNan = v.isNan := by
  cases v with
  | num a => rfl
  | nan => rfl
  | pinf =>
      show (if f = 0 then nan else if 0 < f then pinf else ninf).isNan = false
      rw [if_neg hf]
      split <;> rfl
  | ninf =>
      show (if f = 0 then nan else if 0 < f then ninf else pinf).isNan = false
      rw [if_neg hf]
      split <;> rfl

/-- C7 (corrected): `offset` raises no error and produces NaN in exactly
the previously-NaN cells; `scale` does so whenever the factor is nonzero
or every Z cell is finite-or-NaN (scaling an infinite cell — reachable,
e.g., as log of a zero cell — by factor 0 yields a new NaN); `log` and
`power` (with a nonzero exponent) keep every previously-NaN cell NaN and
raise no error, but may turn further cells NaN (log of a negative value,
fractional power of a negative value); `power` with exponent 0 maps every
cell — NaN included — to 1. -/
theorem C7_nan_propagation (g : Data2D) (L : ℚ → ℚ) (P : ℚ → ℚ → ℚ)
    (off factor minq p : ℚ) (subtract : Bool) (hp : p ≠ 0) :
    (∀ i j, nanAt (g.offset off).z i j = nanAt g.z i j) ∧
    (factor ≠ 0 →
      ∀ i j, nanAt (g.scale_data factor).z i j = nanAt g.z i j) ∧
    ((∀ row ∈ g.z, ∀ v ∈ row, v.isNan = true ∨ v.isNum = true) →
      ∀ i j, nanAt (g.scale_data factor).z i j = nanAt g.z i j) ∧
    (∀ i j, nanAt g.z i j = true →
      nanAt (g.log L subtract minq).z i j = true) ∧
    (∀ i j, nanAt g.z i j = true → nanAt (g.power P p).z i j = true) := by
  refine ⟨?_, ?_, ?_, ?_, ?_⟩
  · intro i j
    exact nanAt_mapMat_eq _ g.z
      (fun row _ v _ => isNan_vadd_const v off) i j
  · intro hf i j
    exact nanAt_mapMat_eq _ g.z
      (fun row _ v _ => isNan_vmul_const_nz v factor hf) i j
  · intro hfin i j
    exact nanAt_mapMat_eq _ g.z
      (fun row hrow v hv => isNan_vmul_const v factor (hfin row hrow v hv)) i j
  · intro i j hm
    cases subtract with
    | false =>
        exact nanAt_mapMat_mono _ g.z (isNan_vlog10_of_nan L) i j hm
    | true =>
        refine nanAt_mapMat_mono _ _ (isNan_vlog10_of_nan L) i j ?_
        exact nanAt_mapMat_mono _ g.z
          (fun v hv => isNan_vadd_of_nan v _ hv) i j hm
  · intro i j hm
    exact nanAt_mapMat_mono _ g.z (isNan_vpow_of_nan P p hp) i j hm

/-- A 1×2 grid whose Z row is [−1, NaN]. -/
def gridNegNan : Data2D :=
  ⟨[[num 0, num 1]], [[num 0, num 0]], [[num (-1), nan]],
   [[num 0, num 1]], [[num 0, num 0]], [[num 0, num 1]]⟩

/-- A 1×1 grid whose only Z cell is NaN. -/
def gridNan : Data2D :=
  ⟨[[num 0]], [[num 0]], [[nan]], [[num 0]], [[num 0]], [[num 0]]⟩

/-- A 1×1 grid whose only Z cell is +inf (as left behind by, e.g., log of
a zero cell or power(0, −1)). -/
def gridInf : Data2D :=
  ⟨[[num 0]], [[num 0]], [[pinf]], [[num 0]], [[num 0]], [[num 0]]⟩

/-- C7 witness: the amended NaN facts at the concrete grid with
z = [[−1, NaN]], scale factor 3 and exponent 1. -/
theorem C7_nan_propagation_witness :
    (∀ i j, nanAt (gridNegNan.offset 5).z i j = nanAt gridNegNan.z i j) ∧
    ((3 : ℚ) ≠ 0 →
      ∀ i j, nanAt (gridNegNan.scale_data 3).z i j = nanAt gridNegNan.z i j) ∧
    ((∀ row ∈ gridNegNan.z, ∀ v ∈ row, v.isNan = true ∨ v.isNum = true) →
      ∀ i j, nanAt (gridNegNan.scale_data 3).z i j = nanAt gridNegNan.z i j) ∧
    (∀ i j, nanAt gridNegNan.z i j = true →
      nanAt (gridNegNan.log (fun q => q) false 0).z i j = true) ∧
    (∀ i j, nanAt gridNegNan.z i j = true →
      nanAt (gridNegNan.power (fun a _ => a) 1).z i j = true) :=
  C7_nan_propagation gridNegNan (fun q => q) (fun a _ => a) 5 3 0 1 false
    (by norm_num)

/-- C7 counterexample: `log` turns the non-NaN cell −1 into NaN (so the
result is not NaN in exactly the previously-NaN cells), `power` with
exponent 0 turns a NaN cell into the non-NaN value 1, and `scale` with
factor 0 turns a non-NaN infinite cell into NaN. -/
theorem C7_cex :
    nanAt gridNegNan.z 0 0 = false ∧
    nanAt (gridNegNan.log (fun q => q) false 0).z 0 0 = true ∧
    nanAt gridNan.z 0 0 = true ∧
    nanAt (gridNan.power (fun a _ => a) 0).z 0 0 = false ∧
    nanAt gridInf.z 0 0 = false ∧
    nanAt (gridInf.scale_data 0).z 0 0 = true := by
  refine ⟨by decide, ?_, by decide, ?_, by decide, ?_⟩
  · norm_num [gridNegNan, Data2D.log, nanAt, mapMat, vlog10, V.isNan]
  · norm_num [gridNan, Data2D.power, nanAt, mapMat, vpow, V.isNan]
  · norm_num [gridInf, Data2D.scale_data, nanAt, mapMat, V.vmul, V.isNan]

lemma map_range_getD {α β : Type} (l : List α) (d : α) (f : α → β) :
    (List.range l.length).map (fun i => f (l.getD i d)) = l.map f := by
  induction l with
  | nil => simp
  | cons a t ih =>
      rw [List.length_cons, List.range_succ_eq_map]
      simp only [List.map_cons, List.map_map, List.getD_cons_zero]
      refine congrArg (f a :: ·) ?_
      have : ((fun i => f ((a :: t).getD i d)) ∘ Nat.succ) =
          (fun i => f (t.getD i d)) := by
        funext i
        simp [List.getD_cons_succ]
      rw [this, ih]

lemma range_map_getD {α : Type} (l : List α) (d : α) :
    (List.range l.length).map (fun i => l.getD i d) = l := by
  have := map_range_getD l d id
  simpa using this

lemma rowRangeList_transpose (m : Mat) :
    rowRangeList (transposeMat m) = colRangeList m := by
  simp [rowRangeList, colRangeList, transposeMat, List.map_map]

lemma getD_map_of_lt {α β : Type} (l : List α) (g : α → β) (i : ℕ)
    (d : β) (d' : α) (hi : i < l.length) :
    (l.map g).getD i d = g (l.getD i d') := by
  rw [List.getD_eq_getElem?_getD, List.getElem?_map,
    List.getElem?_eq_getElem hi]
  rw [List.getD_eq_getElem?_getD, List.getElem?_eq_getElem hi]
  simp

lemma colCount_transpose {m : Mat} {r c : ℕ} (h : rect m r c)
    (hr : 0 < r) (hc : 0 < c) : colCount (transposeMat m) = r := by
  have hcc : colCount m = c := colCount_eq h hr
  have hml : m.length = r := h.1
  unfold transposeMat
  rw [hcc]
  unfold colCount
  have h0 : (0 : ℕ) < (List.range c).length := by simpa using hc
  rw [getD_map_of_lt (List.range c) (getCol m) 0 [] 0 h0]
  have : (List.range c).getD 0 0 = 0 := by
    cases c with
    | zero => omega
    | succ n => simp [List.range_succ_eq_map]
  rw [this]
  simp [getCol, hml]

lemma getCol_transpose {m : Mat} {r c : ℕ} (h : rect m r c)
    (hr : 0 < r) (hc : 0 < c) (i : ℕ) (hi : i < r) :
    getCol (transposeMat m) i = m.getD i [] := by
  have hcc : colCount m = c := colCount_eq h hr
  have hml : m.length = r := h.1
  have hrowlen : (m.getD i []).length = c := by
    have hmem : m.getD i [] ∈ m := by
      rw [List.getD_eq_getElem?_getD,
        List.getElem?_eq_getElem (by omega : i < m.length)]
      exact List.getElem_mem _
    exact h.2 _ hmem
  unfold getCol transposeMat
  rw [List.map_map, hcc]
  have heach : ∀ j, ((getCol m · ) j).getD i nan = (m.getD i []).getD j nan := by
    intro j
    unfold getCol
    exact getD_map_of_lt m (fun row => row.getD j nan) i nan []
      (by omega)
  calc (List.range c).map ((fun row => row.getD i nan) ∘ getCol m)
      = (List.range c).map (fun j => (m.getD i []).getD j nan) := by
        refine List.map_congr_left ?_
        intro j _
        exact heach j
    _ = m.getD i [] := by
        rw [← hrowlen]
        exact range_map_getD _ _

lemma colRangeList_transpose {m : Mat} {r c : ℕ} (h : rect m r c)
    (hr : 0 < r) (hc : 0 < c) :
    colRangeList (transposeMat m) = rowRangeList m := by
  unfold colRangeList
  rw [colCount_transpose h hr hc]
  calc (List.range r).map (fun j =>
          vabs (vsub (nanmaxList (getCol (transposeMat m) j))
            (nanminList (getCol (transposeMat m) j))))
      = (List.range r).map (fun j =>
          vabs (vsub (nanmaxList (m.getD j []))
            (nanminList (m.getD j [])))) := by
        refine List.map_congr_left ?_
        intro j hj
        rw [getCol_transpose h hr hc j (by simpa using hj)]
    _ = rowRangeList m := by
        unfold rowRangeList
        rw [← h.1]
        exact map_range_getD m []
          (fun row => vabs (vsub (nanmaxList row) (nanminList row)))

lemma vgt_asymm (a b : V) (h : vgt a b = true) : vgt b a = false := by
  cases a <;> cases b <;> simp [vgt, vlt] at h ⊢ <;> linarith

/-- C1 (corrected): the orientation canonicalization of `Data2D.__init__`
establishes the opposite inequality of the one claimed: after the pivot the
average per-ROW value range of X is at least the average per-COLUMN value
range (the source transposes all six matrices together exactly when the
average per-column range strictly exceeds the average per-row range), so
the average per-column range never exceeds the average per-row range. -/
theorem C1_orientation (x y z xs ys rn : Mat) (r c : ℕ)
    (hx : rect x r c) (hr : 0 < r) (hc : 0 < c) :
    vgt (vaverage (colRangeList (Data2D.init x y z xs ys rn).x))
      (vaverage (rowRangeList (Data2D.init x y z xs ys rn).x)) = false := by
  unfold Data2D.init
  by_cases hcond :
      vgt (vaverage (colRangeList x)) (vaverage (rowRangeList x)) = true
  · rw [if_pos hcond]
    show vgt (vaverage (colRangeList (transposeMat x)))
      (vaverage (rowRangeList (transposeMat x))) = false
    rw [colRangeList_transpose hx hr hc, rowRangeList_transpose]
    exact vgt_asymm _ _ hcond
  · rw [if_neg hcond]
    show vgt (vaverage (colRangeList x)) (vaverage (rowRangeList x)) = false
    exact Bool.not_eq_true _ |>.mp hcond

/-- A 2×2 grid whose X matrix varies down the columns (the transposing
case of the orientation step). -/
def gridColVar : Data2D :=
  ⟨[[num 0, num 0], [num 1, num 1]], [[num 0, num 1], [num 0, num 1]],
   [[num 1, num 2], [num 3, num 4]], [[num 0, num 0], [num 1, num 1]],
   [[num 0, num 1], [num 0, num 1]], [[num 0, num 1], [num 2, num 3]]⟩

/-- C1 witness: the canonicalized inequality at a concrete grid that the
orientation step transposes. -/
theorem C1_orientation_witness :
    vgt (vaverage (colRangeList (Data2D.init gridColVar.x gridColVar.y
        gridColVar.z gridColVar.x_setpoints gridColVar.y_setpoints
        gridColVar.row_numbers).x))
      (vaverage (rowRangeList (Data2D.init gridColVar.x gridColVar.y
        gridColVar.z gridColVar.x_setpoints gridColVar.y_setpoints
        gridColVar.row_numbers).x)) = false :=
  C1_orientation _ _ _ _ _ _ 2 2 (by decide) (by decide) (by decide)

/-- C1 counterexample: for the pivoted X matrix [[0,1],[0,1]] the
orientation step leaves the grid alone, and the result has average
per-column range 0 < average per-row range 1, falsifying the claimed
direction "per-column ≥ per-row". -/
theorem C1_cex :
    vge (vaverage (colRangeList (Data2D.init
        [[num 0, num 1], [num 0, num 1]] [[num 0, num 0], [num 1, num 1]]
        [[num 1, num 2], [num 3, num 4]] [[num 0, num 1], [num 0, num 1]]
        [[num 0, num 0], [num 1, num 1]] [[num 0, num 1], [num 2, num 3]]).x))
      (vaverage (rowRangeList (Data2D.init
        [[num 0, num 1], [num 0, num 1]] [[num 0, num 0], [num 1, num 1]]
        [[num 1, num 2], [num 3, num 4]] [[num 0, num 1], [num 0, num 1]]
        [[num 0, num 0], [num 1, num 1]] [[num 0, num 1], [num 2, num 3]]).x))
      = false := by
  have hrange : List.range 2 = [0, 1] := by decide
  norm_num [Data2D.init, colRangeList, rowRangeList, colCount, getCol,
    transposeMat, hrange, vaverage, vsumList, nanminList, nanmaxList,
    V.vmin, V.vmax, V.vabs, V.vsub, V.vadd, V.vneg, V.vdiv, V.vge, V.vle,
    V.vgt, V.vlt, V.isNan, List.getD]

lemma foldl_update_const {α β : Type} (P : α → Prop) [DecidablePred P]
    (F : α → β) (l : List α) (a : Option β) (h : ∀ x ∈ l, ¬ P x) :
    l.foldl (fun acc x => if P x then some (F x) else acc) a = a := by
  induction l generalizing a with
  | nil => rfl
  | cons x t ih =>
      rw [List.foldl_cons, if_neg (h x (List.mem_cons_self _ _))]
      exact ih a (fun y hy => h y (List.mem_cons_of_mem _ hy))

lemma foldl_update_last {α β : Type} (P : α → Prop) [DecidablePred P]
    (F : α → β) (l₁ l₂ : List α) (x : α) (a : Option β)
    (hx : P x) (h₂ : ∀ y ∈ l₂, ¬ P y) :
    (l₁ ++ x :: l₂).foldl (fun acc y => if P y then some (F y) else acc) a
      = some (F x) := by
  rw [List.foldl_append, List.foldl_cons, if_pos hx]
  exact foldl_update_const P F l₂ _ h₂

lemma enum_decomp {α : Type} (l : List α) (j : ℕ) (hj : j < l.length) :
    l.enum = l.enum.take j ++ (j, l.get ⟨j, hj⟩) :: l.enum.drop (j + 1) := by
  have hjlen : j < l.enum.length := by simpa [List.enum_length] using hj
  conv_lhs => rw [← List.take_append_drop j l.enum]
  congr 1
  rw [List.drop_eq_getElem_cons hjlen]
  congr 1
  have h1 := List.getElem?_enum l j
  rw [List.getElem?_eq_getElem hj, Option.map_some'] at h1
  rw [List.getElem?_eq_getElem hjlen] at h1
  simpa using h1.symm

lemma mem_enum_drop {α : Type} (l : List α) (j : ℕ) (p : ℕ × α)
    (hp : p ∈ l.enum.drop (j + 1)) :
    j < p.1 ∧ ∃ hk : p.1 < l.length, l.get ⟨p.1, hk⟩ = p.2 := by
  obtain ⟨i, hi, hget⟩ := List.mem_iff_getElem.mp hp
  have h2 : (l.enum.drop (j + 1))[i]? = some p := by
    rw [List.getElem?_eq_getElem hi, hget]
  rw [List.getElem?_drop, List.getElem?_enum] at h2
  cases hl : l[j + 1 + i]? with
  | none => rw [hl] at h2; simp at h2
  | some a =>
      rw [hl] at h2
      simp only [Option.map_some', Option.some.injEq] at h2
      have hlt : j + 1 + i < l.length := by
        by_contra hge
        have hnone : l[j + 1 + i]? = none := List.getElem?_eq_none (by omega)
        rw [hnone] at hl
        exact Option.noConfusion hl
      subst h2
      refine ⟨by omega, ⟨by omega, ?_⟩⟩
      rw [List.get_eq_getElem]
      rw [List.getElem?_eq_getElem hlt] at hl
      exact Option.some.inj hl

lemma mem_uniqueSorted (l : List ℚ) (q : ℚ) (h : q ∈ l) :
    q ∈ uniqueSorted l := by
  unfold uniqueSorted
  rw [List.mem_insertionSort, List.mem_dedup]
  exact h

lemma indexOf_uniqueSorted_inj (l : List ℚ) (q1 q2 : ℚ) (h1 : q1 ∈ l)
    (h2 : q2 ∈ l)
    (h : (uniqueSorted l).indexOf q1 = (uniqueSorted l).indexOf q2) :
    q1 = q2 :=
  (List.indexOf_inj (mem_uniqueSorted _ _ h1) (mem_uniqueSorted _ _ h2)).mp h

/-- C4 (confirmed): when several records share a setpoint pair, the pivoted
cell addressed by that pair holds the x, y, z values and the row number of
the record occurring latest in file order — the writes happen in file
order, so the last one wins deterministically (never an average). -/
theorem C4_duplicate_last_wins (rs : List ScanRecord) (i j : ℕ)
    (hij : i < j) (hj : j < rs.length)
    (hdup : (rs.get ⟨i, lt_trans hij hj⟩).xsp = (rs.get ⟨j, hj⟩).xsp ∧
            (rs.get ⟨i, lt_trans hij hj⟩).ysp = (rs.get ⟨j, hj⟩).ysp)
    (hlast : ∀ k (hk : k < rs.length), j < k →
      ¬((rs.get ⟨k, hk⟩).xsp = (rs.get ⟨j, hj⟩).xsp ∧
        (rs.get ⟨k, hk⟩).ysp = (rs.get ⟨j, hj⟩).ysp)) :
    pivotCell rs (rowIndexOf rs (rs.get ⟨j, hj⟩).ysp)
      (colIndexOf rs (rs.get ⟨j, hj⟩).xsp) =
      some (rs.get ⟨j, hj⟩, j) := by
  unfold pivotCell
  rw [enum_decomp rs j hj]
  refine foldl_update_last
    (fun p : ℕ × ScanRecord =>
      rowIndexOf rs p.2.ysp = rowIndexOf rs (rs.get ⟨j, hj⟩).ysp ∧
      colIndexOf rs p.2.xsp = colIndexOf rs (rs.get ⟨j, hj⟩).xsp)
    (fun p : ℕ × ScanRecord => (p.2, p.1)) _ _ _ _ ⟨rfl, rfl⟩ ?_
  intro p hp
  obtain ⟨hgt, hk, hpk⟩ := mem_enum_drop rs j p hp
  intro hP
  obtain ⟨hPr, hPc⟩ := hP
  have hyin : p.2.ysp ∈ rs.map ScanRecord.ysp := by
    rw [← hpk]
    exact List.mem_map_of_mem _ (rs.get_mem _ _)
  have hyjn : (rs.get ⟨j, hj⟩).ysp ∈ rs.map ScanRecord.ysp :=
    List.mem_map_of_mem _ (rs.get_mem _ _)
  have hxin : p.2.xsp ∈ rs.map ScanRecord.xsp := by
    rw [← hpk]
    exact List.mem_map_of_mem _ (rs.get_mem _ _)
  have hxjn : (rs.get ⟨j, hj⟩).xsp ∈ rs.map ScanRecord.xsp :=
    List.mem_map_of_mem _ (rs.get_mem _ _)
  have hyeq : p.2.ysp = (rs.get ⟨j, hj⟩).ysp :=
    indexOf_uniqueSorted_inj _ _ _ hyin hyjn hPr
  have hxeq : p.2.xsp = (rs.get ⟨j, hj⟩).xsp :=
    indexOf_uniqueSorted_inj _ _ _ hxin hxjn hPc
  exact hlast p.1 hk hgt ⟨by rw [hpk]; exact hxeq, by rw [hpk]; exact hyeq⟩

/-- Two records sharing the setpoint pair (0, 0), with different values. -/
def rsDup : List ScanRecord :=
  [⟨0, 0, 10, 20, 30⟩, ⟨0, 0, 11, 21, 31⟩]

/-- C4 witness: with two duplicate records the pivoted cell holds the
second record and its row number 1. -/
theorem C4_duplicate_last_wins_witness :
    pivotCell rsDup (rowIndexOf rsDup 0) (colIndexOf rsDup 0) =
      some (⟨0, 0, 11, 21, 31⟩, 1) := by
  have h := C4_duplicate_last_wins rsDup 0 1 (by omega) (by decide)
    ⟨rfl, rfl⟩ (by
      intro k hk h1
      have h2 : k < 2 := by simpa [rsDup] using hk
      exact absurd h1 (by omega))
  exact h

lemma distr_func_pos (d : Distr) (r : ℝ) : 0 < d.func r := by
  cases d <;> simp only [Distr.func] <;> positivity

lemma kernelAxis_ne_nil (dev cutoff : ℚ) : kernelAxis dev cutoff ≠ [] := by
  simp only [kernelAxis]
  split
  · simp
  · intro hnil
    have hlen := congrArg List.length hnil
    simp at hlen

lemma list_sum_div (l : List ℝ) (c : ℝ) :
    (l.map (fun x => x / c)).sum = l.sum / c := by
  induction l with
  | nil => simp
  | cons a t ih => simp [ih, add_div]

lemma sumMatR_div (m : List (List ℝ)) (c : ℝ) :
    sumMatR (m.map (fun row => row.map (fun v => v / c))) = sumMatR m / c := by
  unfold sumMatR
  rw [List.map_map]
  have h1 : (List.sum ∘ fun row => row.map (fun v => v / c)) =
      (fun row : List ℝ => row.sum / c) := by
    funext row
    exact list_sum_div row c
  rw [h1]
  have h2 : m.map (fun row : List ℝ => row.sum / c) =
      (m.map List.sum).map (fun x => x / c) := by
    rw [List.map_map]
    rfl
  rw [h2, list_sum_div]

lemma kernelRaw_sum_pos (d : Distr) (x_dev y_dev cutoff : ℚ) :
    0 < sumMatR (kernelRaw d x_dev y_dev cutoff) := by
  unfold sumMatR kernelRaw
  rw [List.map_map]
  refine List.sum_pos _ ?_ ?_
  · intro s hs
    simp only [List.mem_map, Function.comp] at hs
    obtain ⟨yv, _, rfl⟩ := hs
    refine List.sum_pos _ ?_ ?_
    · intro v hv
      simp only [List.mem_map] at hv
      obtain ⟨xv, _, rfl⟩ := hv
      exact distr_func_pos d _
    · intro hnil
      exact kernelAxis_ne_nil x_dev cutoff (List.map_eq_nil.mp hnil)
  · intro hnil
    exact kernelAxis_ne_nil y_dev cutoff (List.map_eq_nil.mp hnil)

/-- C8 (confirmed): for every distribution family and every valid parameter
triple (positive deviations, nonnegative cutoff), the generated convolution
kernel sums to exactly 1 (the float implementation is within floating
tolerance of this exact value). -/
theorem C8_kernel_normalization (d : Distr) (x_dev y_dev cutoff : ℚ)
    (hx : 0 < x_dev) (hy : 0 < y_dev) (hc : 0 ≤ cutoff) :
    sumMatR (create_kernel d x_dev y_dev cutoff) = 1 := by
  unfold create_kernel
  have hpos := kernelRaw_sum_pos d x_dev y_dev cutoff
  rw [sumMatR_div]
  exact div_self (ne_of_gt hpos)

/-- C8 witness: the gaussian kernel with x_dev = y_dev = 1, cutoff = 7 has
unit sum. -/
theorem C8_kernel_normalization_witness :
    sumMatR (create_kernel .gaussian 1 1 7) = 1 :=
  C8_kernel_normalization .gaussian 1 1 7 (by norm_num) (by norm_num)
    (by norm_num)

/-- C9 (corrected): for an axis with exactly one cell, the single-cell
branch of `get_quadrilaterals` synthesizes the boundary coordinates as the
cell value ± 1 unit (not ± 0.5 as claimed; the stale source comment also
says "-.5 to .5"), duplicating the row/column so that pcolor has a
degenerate quad to draw. -/
theorem C9_single_cell (xc yc : Mat) (r c : ℕ)
    (hx : rect xc r 1) (hr : 0 < r) (hy : rect yc 1 c) (hc : 0 < c) :
    quadXSingle xc =
      (xc.map (fun row => [vsub (row.getD 0 nan) (num 1),
        vadd (row.getD 0 nan) (num 1)])) ++
      [[vsub ((xc.getD 0 []).getD 0 nan) (num 1),
        vadd ((xc.getD 0 []).getD 0 nan) (num 1)]] ∧
    quadYSingle yc =
      [(yc.getD 0 []).map (fun v => vsub v (num 1)) ++
         [vsub ((yc.getD 0 []).getD 0 nan) (num 1)],
       (yc.getD 0 []).map (fun v => vadd v (num 1)) ++
         [vadd ((yc.getD 0 []).getD 0 nan) (num 1)]] := by
  constructor
  · have hdef : quadXSingle xc =
        (List.zipWith (fun r1 r2 => r1 ++ r2)
          (xc.map (fun row => row.map (fun v => vsub v (num 1))))
          ((xc.map (fun row => row.getD 0 nan)).map
            (fun v => [vadd v (num 1)]))) ++
        [(List.zipWith (fun r1 r2 => r1 ++ r2)
          (xc.map (fun row => row.map (fun v => vsub v (num 1))))
          ((xc.map (fun row => row.getD 0 nan)).map
            (fun v => [vadd v (num 1)]))).getD 0 []] := rfl
    have hzip : List.zipWith (fun r1 r2 => r1 ++ r2)
        (xc.map (fun row => row.map (fun v => vsub v (num 1))))
        ((xc.map (fun row => row.getD 0 nan)).map
          (fun v => [vadd v (num 1)])) =
        xc.map (fun row => row.map (fun v => vsub v (num 1)) ++
          [vadd (row.getD 0 nan) (num 1)]) := by
      rw [List.map_map, List.zipWith_map_left, List.zipWith_map_right,
        List.zipWith_same]
      rfl
    have hrow : ∀ row ∈ xc, row.map (fun v => vsub v (num 1)) ++
        [vadd (row.getD 0 nan) (num 1)] =
        [vsub (row.getD 0 nan) (num 1), vadd (row.getD 0 nan) (num 1)] := by
      intro row hm
      obtain ⟨v, rfl⟩ := List.length_eq_one.mp (hx.2 row hm)
      simp [List.getD]
    have hlen : 0 < xc.length := by
      have := hx.1
      omega
    rw [hdef, hzip, List.map_congr_left hrow]
    congr 1
    rw [getD_map_of_lt xc _ 0 [] [] hlen]
  · obtain ⟨row, rfl⟩ := List.length_eq_one.mp hy.1
    have hrl : row.length = c := hy.2 row (List.mem_cons_self _ _)
    have hr0 : 0 < row.length := by omega
    have hdefY : quadYSingle [row] =
        [row.map (fun v => vsub v (num 1)) ++
           [(row.map (fun v => vsub v (num 1))).getD 0 nan],
         row.map (fun v => vadd v (num 1)) ++
           [(row.map (fun v => vadd v (num 1))).getD 0 nan]] := rfl
    rw [hdefY]
    simp only [List.getD_cons_zero]
    rw [getD_map_of_lt row (fun v => vsub v (num 1)) 0 nan nan hr0,
      getD_map_of_lt row (fun v => vadd v (num 1)) 0 nan nan hr0]

/-- C9 witness: the ±1 boundary synthesis at the concrete single-column
x matrix [[2]] and single-row y matrix [[3, 4]]. -/
theorem C9_single_cell_witness :
    quadXSingle [[num 2]] =
      ([[num 2]].map (fun row => [vsub (row.getD 0 nan) (num 1),
        vadd (row.getD 0 nan) (num 1)])) ++
      [[vsub (([[num 2]].getD 0 []).getD 0 nan) (num 1),
        vadd (([[num 2]].getD 0 []).getD 0 nan) (num 1)]] ∧
    quadYSingle [[num 3, num 4]] =
      [([[num 3, num 4]].getD 0 []).map (fun v => vsub v (num 1)) ++
         [vsub (([[num 3, num 4]].getD 0 []).getD 0 nan) (num 1)],
       ([[num 3, num 4]].getD 0 []).map (fun v => vadd v (num 1)) ++
         [vadd (([[num 3, num 4]].getD 0 []).getD 0 nan) (num 1)]] :=
  C9_single_cell [[num 2]] [[num 3, num 4]] 1 2 (by decide) (by decide)
    (by decide) (by decide)

/-- C9 counterexample: with the single cell value 0, the synthesized
boundary pair is (−1, 1) — the value ± 1 unit — and not the claimed
value ± 0.5 window (−0.5, 0.5). -/
theorem C9_cex :
    quadXSingle [[num 0]] = [[num (-1), num 1], [num (-1), num 1]] ∧
    (num (-1) : V) ≠ num (-(1 / 2 : ℚ)) ∧
    (num 1 : V) ≠ num (1 / 2 : ℚ) := by
  refine ⟨?_, by simp, by simp⟩
  norm_num [quadXSingle, mapMat, vsub, vadd, vneg, List.getD]

/-- The 2×2 grid whose x range and y range are exactly the unit square. -/
def gridUnit : Data2D :=
  ⟨[[num 0, num 1], [num 0, num 1]], [[num 0, num 0], [num 1, num 1]],
   [[num 0, num 0], [num 0, num 0]], [[num 0, num 1], [num 0, num 1]],
   [[num 0, num 0], [num 1, num 1]], [[num 0, num 1], [num 2, num 3]]⟩

/-- C10 (corrected): `interpolate` destructively replaces the caller's
query coordinates with their unit-square-normalized values
(x − xmin)/(xmax − xmin) and (y − ymin)/(ymax − ymin) whenever both ranges
are non-degenerate; however the array is NOT always left different from its
input — when the grid's limits are exactly (0, 1) × (0, 1) the
normalization is the identity and the caller's points come back unchanged
even though the ranges are non-trivial. -/
theorem C10_interpolate_mutation (g : Data2D) (points : List (ℚ × ℚ))
    (a b c d : ℚ) (hxm : nanminMat g.x = num a) (hxM : nanmaxMat g.x = num b)
    (hab : a ≠ b) (hym : nanminMat g.y = num c) (hyM : nanmaxMat g.y = num d)
    (hcd : c ≠ d) :
    g.interpolateMutate points = points.map (fun p =>
      (num ((p.1 - a) / (b - a)), num ((p.2 - c) / (d - c)))) := by
  have hveq1 : veq (num a) (num b) = false := by
    simp [veq, hab]
  have hveq2 : veq (num c) (num d) = false := by
    simp [veq, hcd]
  have hba : b + -a ≠ 0 := by
    intro h0
    exact hab (by linarith)
  have hdc : d + -c ≠ 0 := by
    intro h0
    exact hcd (by linarith)
  unfold Data2D.interpolateMutate Data2D.get_limits
  simp only [hxm, hxM, hym, hyM, hveq1, hveq2, Bool.false_eq_true, if_false]
  refine List.map_congr_left ?_
  intro p _
  simp [vsub, vadd, vneg, vdiv, hba, hdc, sub_eq_add_neg]

/-- C10 witness: the in-place normalization formula at a concrete grid
with x range (0, 2) and y range (0, 4). -/
theorem C10_interpolate_mutation_witness :
    (⟨[[num 0, num 2]], [[num 0], [num 4]], [[num 0, num 0]],
        [[num 0, num 2]], [[num 0], [num 4]], [[num 0, num 1]]⟩ :
      Data2D).interpolateMutate [(1, 1)] =
      [(num ((1 - 0) / (2 - 0)), num ((1 - 0) / (4 - 0)))] := by
  have h := C10_interpolate_mutation
    ⟨[[num 0, num 2]], [[num 0], [num 4]], [[num 0, num 0]],
      [[num 0, num 2]], [[num 0], [num 4]], [[num 0, num 1]]⟩
    [(1, 1)] 0 2 0 4 (by rfl) (by rfl) (by norm_num) (by rfl) (by rfl)
    (by norm_num)
  simpa using h

/-- C10 counterexample: on the grid whose limits are exactly the unit
square the normalization is the identity map, so the caller's points array
comes back unchanged even though both ranges are non-trivial (0 ≠ 1),
refuting "the input is never left unchanged when the ranges are
non-trivial". -/
theorem C10_cex :
    nanminMat gridUnit.x = num 0 ∧ nanmaxMat gridUnit.x = num 1 ∧
    nanminMat gridUnit.y = num 0 ∧ nanmaxMat gridUnit.y = num 1 ∧
    gridUnit.interpolateMutate [(1 / 2, 1 / 2)] =
      [(num (1 / 2), num (1 / 2))] := by
  refine ⟨?_, ?_, ?_, ?_, ?_⟩ <;>
    norm_num [gridUnit, Data2D.interpolateMutate, Data2D.get_limits,
      nanminMat, nanmaxMat, matCells, nanminList, nanmaxList, V.isNan,
      V.vmin, V.vmax, V.veq, V.vdiv, V.vsub, V.vadd, V.vneg, V.vle,
      List.filter]

/-- The Delaunay output for the three non-NaN points (0,0), (1,0), (0,1):
one simplex over vertices 0, 1, 2. -/
def triEx : List (ℕ × ℕ × ℕ) := [(0, 1, 2)]

/-- The affine transform of that simplex: the two rows of the inverse
edge matrix and the reference vertex (0, 1). -/
def transEx : List ((ℚ × ℚ) × (ℚ × ℚ) × (ℚ × ℚ)) :=
  [((-1, -1), (1, 0), (0, 1))]

/-- The surviving non-NaN z values at the three triangulated points. -/
def valsEx : List ℚ := [1, 2, 3]

/-- C3 (code bug): the line that would have replaced out-of-hull results
with NaN is commented out in the source (data.py line 441, with a comment
saying it "should put a NaN for points outside of any simplices"), so for
a query point outside the convex hull — where scipy's find_simplex returns
−1 — np.take wraps the −1 around to the LAST simplex and the code returns
a barycentric extrapolation from it.  At the query point (2,2), outside
the hull of the triangle (0,0),(1,0),(0,1) with values [1,2,3], the code
returns the plain number 7, not NaN. -/
theorem C3_outside_hull_eval :
    interpolateValues triEx transEx valsEx [((2, 2), -1)] = [7] := by
  norm_num [interpolateValues, npTakeRow, triEx, transEx, valsEx, List.getD]
